import Mathlib

open scoped Classical

/-!
Shallow embedding of Stellarium's `OctahedronPolygon.cpp` spherical-polygon
kernel, in exact real arithmetic. Doubles become `ℝ`, `QVector`s become
lists, the GLUES planar tesselator (an external library) is abstracted as an
oracle, and the fallible arc-intersection helper returns an `Option`.
-/

/-- Vec3d: three doubles, modelled in exact real arithmetic. -/
structure Vec3 where
  x : ℝ
  y : ℝ
  z : ℝ

/-- Dot product, `operator*` of Vec3d. -/
def Vec3.dot (a b : Vec3) : ℝ := a.x * b.x + a.y * b.y + a.z * b.z

/-- Cross product, `operator^` of Vec3d. -/
def Vec3.cross (a b : Vec3) : Vec3 :=
  ⟨a.y * b.z - a.z * b.y, a.z * b.x - a.x * b.z, a.x * b.y - a.y * b.x⟩

/-- Componentwise sum, `operator+` of Vec3d. -/
def Vec3.add (a b : Vec3) : Vec3 := ⟨a.x + b.x, a.y + b.y, a.z + b.z⟩

/-- Scalar multiple, `operator*=` of Vec3d by a double. -/
def Vec3.smul (s : ℝ) (v : Vec3) : Vec3 := ⟨s * v.x, s * v.y, s * v.z⟩

/-- Component access `v[i]` of Vec3d. -/
def Vec3.nth (v : Vec3) : Fin 3 → ℝ
  | 0 => v.x
  | 1 => v.y
  | 2 => v.z

/-- Euclidean length, `Vec3d::length()`. -/
noncomputable def Vec3.length (v : Vec3) : ℝ :=
  Real.sqrt (v.x * v.x + v.y * v.y + v.z * v.z)

/-- Normalization, `Vec3d::normalize()`: `*this *= 1/length()`. -/
noncomputable def Vec3.normalize (v : Vec3) : Vec3 :=
  Vec3.smul (1 / v.length) v

/-- A unit vector of the sphere: its dot square is one. -/
def Vec3.isUnit (v : Vec3) : Prop := v.dot v = 1

/-- OctahedronPolygon::sideDirections, the fixed octant normal table. -/
def sideDirections : Fin 8 → Vec3
  | 0 => ⟨1, 1, 1⟩
  | 1 => ⟨1, 1, -1⟩
  | 2 => ⟨-1, 1, 1⟩
  | 3 => ⟨-1, 1, -1⟩
  | 4 => ⟨1, -1, 1⟩
  | 5 => ⟨1, -1, -1⟩
  | 6 => ⟨-1, -1, 1⟩
  | 7 => ⟨-1, -1, -1⟩

/-- Predicate `intersectsBoundingCap(n1, d1, n2, d2)` of the source,
with `a = d1*d2 - n1*n2`. -/
def intersectsBoundingCap (n1 : Vec3) (d1 : ℝ) (n2 : Vec3) (d2 : ℝ) : Prop :=
  let a := d1 * d2 - n1.dot n2
  d1 + d2 ≤ 0 ∨ a ≤ 0 ∨ (a ≤ 1 ∧ a * a ≤ (1 - d1 * d1) * (1 - d2 * d2))

/-- Predicate `containsBoundingCap(n1, d1, n2, d2)` of the source,
with `a = n1*n2 - d1*d2`; the guard `d1<=d1` is kept as written. -/
def containsBoundingCap (n1 : Vec3) (d1 : ℝ) (n2 : Vec3) (d2 : ℝ) : Prop :=
  let a := n1.dot n2 - d1 * d2
  d1 ≤ d1 ∧ (1 ≤ a ∨ (0 ≤ a ∧ (1 - d1 * d1) * (1 - d2 * d2) ≤ a * a))

/-- EdgeVertex: a vertex with its outline flag. -/
structure EdgeVertex where
  vertex : Vec3
  edgeFlag : Bool

/-- SubContour: an implicitly closed sequence of edge vertices. -/
abbrev SubContour := List EdgeVertex

/-- Function `getSide(v, onLine)`: 0 when `v[onLine] >= 0`, else 1. -/
noncomputable def getSide (v : Vec3) (onLine : Fin 3) : ℕ :=
  if 0 ≤ v.nth onLine then 0 else 1

/-- The cutting-plane normal `plan` built in `splitContourByPlan`:
the `onLine`-th basis vector. -/
def planOf (onLine : Fin 3) : Vec3 :=
  ⟨if onLine = 0 then 1 else 0, if onLine = 1 then 1 else 0, if onLine = 2 then 1 else 0⟩

/-- Modelled from the spec: `greatCircleIntersection(p1, p2, nn, ok)` is
declared in the repository's sphere-geometry headers, whose sources are not
part of this file set. Per the spec it returns a point of the cutting plane
on the great circle through `p1` and `p2`, and fails (`ok=false`) when the
endpoints are degenerate and do not define a plane. We model the returned
point as the intersection direction `(p1 × p2) × nn` of the two planes, and
failure as that direction being degenerate (the zero vector). -/
noncomputable def greatCircleIntersection (p1 p2 nn : Vec3) : Option Vec3 :=
  let c := (p1.cross p2).cross nn
  if c.x = 0 ∧ c.y = 0 ∧ c.z = 0 then none else some c

/-- State of the main loop of `splitContourByPlan`: the two result lists,
the open accumulator `currentSubContour`, `previousQuadrant` and
`previousVertex`. -/
structure SplitState where
  res0 : List SubContour
  res1 : List SubContour
  current : SubContour
  prevQ : ℕ
  prevV : Vec3

/-- Append a finished sub-contour to `result[q]`. -/
def pushRes (q : ℕ) (c : SubContour) (r0 r1 : List SubContour) :
    List SubContour × List SubContour :=
  if q = 0 then (r0 ++ [c], r1) else (r0, r1 ++ [c])

/-- The in-place write `currentSubContour.last().edgeFlag = false`. -/
def setLastEdgeFlagFalse : SubContour → SubContour
  | [] => []
  | [v] => [{ v with edgeFlag := false }]
  | v :: w :: rest => v :: setLastEdgeFlagFalse (w :: rest)

/-- Body of the second loop of `splitContourByPlan` for one vertex. -/
noncomputable def splitStep (onLine : Fin 3) (plan : Vec3) (st : SplitState)
    (cv : EdgeVertex) : SplitState :=
  let cq := getSide cv.vertex onLine
  if cq = st.prevQ then
    { st with current := st.current ++ [cv], prevV := cv.vertex }
  else
    match greatCircleIntersection st.prevV cv.vertex plan with
    | none =>
      let r := pushRes st.prevQ (setLastEdgeFlagFalse st.current) st.res0 st.res1
      { res0 := r.1, res1 := r.2, current := [{ cv with edgeFlag := false }],
        prevQ := cq, prevV := cv.vertex }
    | some tmp =>
      let r := pushRes st.prevQ (st.current ++ [⟨tmp, false⟩]) st.res0 st.res1
      { res0 := r.1, res1 := r.2, current := [⟨tmp, false⟩, cv],
        prevQ := cq, prevV := cv.vertex }

/-- The second loop of `splitContourByPlan` over the remaining vertices. -/
noncomputable def splitLoop (onLine : Fin 3) (plan : Vec3) :
    SplitState → List EdgeVertex → SplitState
  | st, [] => st
  | st, v :: rest => splitLoop onLine plan (splitStep onLine plan st v) rest

/-- Output of the first loop of `splitContourByPlan`: the unfinished
sub-contour, the opened accumulator, the updated quadrant and previous
vertex, and the vertices still to process (the loop breaks with `i` at the
first crossing vertex, which the second loop then re-reads). -/
structure FirstLoopOut where
  unfinished : SubContour
  current : SubContour
  prevQ : ℕ
  prevV : Vec3
  rest : List EdgeVertex

/-- First loop of `splitContourByPlan`: collect vertices on the starting
side into `unfinishedSubContour` until the first crossing. -/
noncomputable def splitFirstLoop (onLine : Fin 3) (plan : Vec3) (q0 : ℕ) (prevV : Vec3) :
    List EdgeVertex → FirstLoopOut
  | [] => ⟨[], [], q0, prevV, []⟩
  | v :: rest =>
    if getSide v.vertex onLine = q0 then
      let o := splitFirstLoop onLine plan q0 v.vertex rest
      { o with unfinished := v :: o.unfinished }
    else
      match greatCircleIntersection prevV v.vertex plan with
      | none => ⟨[], [], getSide v.vertex onLine, prevV, v :: rest⟩
      | some tmp => ⟨[⟨tmp, false⟩], [⟨tmp, false⟩], getSide v.vertex onLine, prevV, v :: rest⟩

/-- Handling of the closing segment between the last and the first vertex
in `splitContourByPlan`. -/
noncomputable def splitClose (onLine : Fin 3) (plan : Vec3) (firstV : EdgeVertex)
    (st : SplitState) : SplitState :=
  let cq := getSide firstV.vertex onLine
  if cq = st.prevQ then st
  else
    match greatCircleIntersection st.prevV firstV.vertex plan with
    | none =>
      let r := pushRes st.prevQ (setLastEdgeFlagFalse st.current) st.res0 st.res1
      { st with res0 := r.1, res1 := r.2, current := [] }
    | some tmp =>
      let r := pushRes st.prevQ (st.current ++ [⟨tmp, false⟩]) st.res0 st.res1
      { st with res0 := r.1, res1 := r.2, current := [⟨tmp, false⟩] }

/-- Function `OctahedronPolygon::splitContourByPlan(onLine, inputContour,
result)`: the pair of sub-contour lists appended to `result[0]` and
`result[1]`. The source indexes `inputContour.first()` unconditionally, so
the empty input (undefined behaviour there) is mapped to no output. -/
noncomputable def splitContourByPlan (onLine : Fin 3) (input : List EdgeVertex) :
    List SubContour × List SubContour :=
  match input with
  | [] => ([], [])
  | first :: _ =>
    let plan := planOf onLine
    let q0 := getSide first.vertex onLine
    let o := splitFirstLoop onLine plan q0 first.vertex input
    let st1 : SplitState := ⟨[], [], o.current, o.prevQ, o.prevV⟩
    let st2 := splitLoop onLine plan st1 o.rest
    let st3 := splitClose onLine plan first st2
    pushRes (getSide first.vertex onLine) (st3.current ++ o.unfinished) st3.res0 st3.res1

/-- Half-space and provenance invariant for one output vertex of
`splitContourByPlan`: it sits weakly on the side `q` of axis `a` (a vertex
on the cutting plane satisfies both sides), and it is either an original
input vertex or a synthesized cut vertex, flagged `false` and on the plane.
`vs` is the list of input vertex positions. -/
def goodVertex (vs : List Vec3) (a : Fin 3) (q : ℕ) (ev : EdgeVertex) : Prop :=
  ((q = 0 → 0 ≤ ev.vertex.nth a) ∧ (q = 1 → ev.vertex.nth a ≤ 0)) ∧
  (ev.vertex ∈ vs ∨ (ev.edgeFlag = false ∧ ev.vertex.nth a = 0))

/-- Invariant carried through the loops of `splitContourByPlan`. -/
def SplitInv (vs : List Vec3) (a : Fin 3) (st : SplitState) : Prop :=
  (st.prevQ = 0 ∨ st.prevQ = 1) ∧
  (∀ c ∈ st.res0, ∀ ev ∈ c, goodVertex vs a 0 ev) ∧
  (∀ c ∈ st.res1, ∀ ev ∈ c, goodVertex vs a 1 ev) ∧
  (∀ ev ∈ st.current, goodVertex vs a st.prevQ ev)

/-- Step 3 of `appendSubContour` for one quadrant sub-contour: if the
contour was not split (its last vertex is still a real edge vertex) leave
it alone, otherwise close it through the pole selected by the cross product
of its first and last vertices. -/
noncomputable def poleRepair (c : SubContour) : SubContour :=
  match c with
  | [] => []
  | v0 :: rest =>
    let lastV := (v0 :: rest).getLast (List.cons_ne_nil v0 rest)
    if lastV.edgeFlag = true then v0 :: rest
    else
      let v := v0.vertex.cross lastV.vertex
      if 0.00000001 < v.z then (v0 :: rest) ++ [⟨⟨0, 0, -1⟩, false⟩]
      else if v.z < -0.0000001 then (v0 :: rest) ++ [⟨⟨0, 0, 1⟩, false⟩]
      else v0 :: rest

/-- Central projection of one vertex in `projectOnOctahedron`:
`v *= 1/(sideDirection*v); v[2] = 0`. -/
noncomputable def projectOnOctahedronVertex (v : Vec3) (sideDirection : Vec3) : Vec3 :=
  let w := Vec3.smul (1 / (sideDirection.dot v)) v
  ⟨w.x, w.y, 0⟩

/-- Function `OctahedronPolygon::projectOnOctahedron`, applied to the eight
sub-contour lists vertex by vertex. -/
noncomputable def projectOnOctahedron (inSides : Fin 8 → List SubContour) :
    Fin 8 → List SubContour :=
  fun i => (inSides i).map (List.map (fun ev =>
    { ev with vertex := projectOnOctahedronVertex ev.vertex (sideDirections i) }))

/-- Function `OctahedronPolygon::appendSubContour`: split by y=0, split by
x=0, repair poles, split by z=0, project, and append per face. -/
noncomputable def appendSubContour (sides : Fin 8 → List SubContour)
    (inContour : SubContour) : Fin 8 → List SubContour :=
  let s1 := splitContourByPlan 1 inContour
  let sv2 : Fin 4 → List SubContour := fun c =>
    match c with
    | 0 => s1.1.flatMap (fun sc => (splitContourByPlan 0 sc).1)
    | 1 => s1.1.flatMap (fun sc => (splitContourByPlan 0 sc).2)
    | 2 => s1.2.flatMap (fun sc => (splitContourByPlan 0 sc).1)
    | 3 => s1.2.flatMap (fun sc => (splitContourByPlan 0 sc).2)
  let repaired : Fin 4 → List SubContour := fun c => (sv2 c).map poleRepair
  let resultSides : Fin 8 → List SubContour := fun i =>
    let c : Fin 4 := ⟨i.val / 2, by omega⟩
    if i.val % 2 = 0 then (repaired c).flatMap (fun sc => (splitContourByPlan 2 sc).1)
    else (repaired c).flatMap (fun sc => (splitContourByPlan 2 sc).2)
  let projected := projectOnOctahedron resultSides
  fun i => sides i ++ projected i

/-- Function `unprojectOctahedron(v, sideDirection)`:
`v[2] = (1 - sideDirection*v)/sideDirection[2]`, then normalize. -/
noncomputable def unprojectOctahedron (v : Vec3) (sideDirection : Vec3) : Vec3 :=
  Vec3.normalize ⟨v.x, v.y, (1 - sideDirection.dot v) / sideDirection.z⟩

/-- Unprojection of an edge vertex, flag untouched. -/
noncomputable def unprojEV (n : Vec3) (ev : EdgeVertex) : EdgeVertex :=
  { ev with vertex := unprojectOctahedron ev.vertex n }

/-- Function `OctahedronPolygon::isTriangleConvexPositive2D`. -/
def isTriangleConvexPositive2D (a b c : Vec3) : Prop :=
  0 ≤ (b.x - a.x) * (c.y - a.y) - (b.y - a.y) * (c.x - a.x) ∧
  0 ≤ (c.x - b.x) * (a.y - b.y) - (c.y - b.y) * (a.x - b.x) ∧
  0 ≤ (a.x - c.x) * (b.y - c.y) - (a.y - c.y) * (b.x - c.x)

/-- Post-processing of the tesselated triangles of one side in
`updateVertexArray`: keep only the triangles passing the parity-adjusted
orientation test and unproject their vertices. -/
noncomputable def processOneSideTriangles (n : Vec3) (evenSide : Bool) :
    List Vec3 → List Vec3
  | a :: b :: c :: rest =>
    (if (if evenSide then isTriangleConvexPositive2D c b a
         else isTriangleConvexPositive2D a b c) then
      [unprojectOctahedron a n, unprojectOctahedron b n, unprojectOctahedron c n]
    else []) ++ processOneSideTriangles n evenSide rest
  | _ => []

/-- Outline extraction of `updateVertexArray` over one sub-contour, inner
loop: `prev` is already unprojected, `firstV` is the raw first vertex used
for the closing segment. -/
noncomputable def outlineLoop (n : Vec3) (firstV : EdgeVertex) (prev : EdgeVertex) :
    List EdgeVertex → List Vec3
  | [] =>
    if prev.edgeFlag || firstV.edgeFlag then
      [prev.vertex, unprojectOctahedron firstV.vertex n]
    else []
  | v :: rest =>
    if prev.edgeFlag || v.edgeFlag then
      prev.vertex :: (unprojEV n v).vertex :: outlineLoop n firstV (unprojEV n v) rest
    else outlineLoop n firstV (unprojEV n v) rest

/-- Outline extraction of `updateVertexArray` over one sub-contour. -/
noncomputable def outlineOneSub (n : Vec3) : SubContour → List Vec3
  | [] => []
  | v0 :: rest => outlineLoop n v0 (unprojEV n v0) rest

/-- The outline cache `updateVertexArray` builds from the eight sides. -/
noncomputable def outlineOf (sides : Fin 8 → List SubContour) : List Vec3 :=
  (List.finRange 8).flatMap (fun i =>
    match sides i with
    | [] => []
    | cs => cs.flatMap (outlineOneSub (sideDirections i)))

/-- The two GLUES winding rules the kernel uses. -/
inductive TessWindingRule where
  | windingPositive
  | windingAbsGeqTwo

/-- The GLUES planar tesselator, an external library, abstracted as an
oracle: `lineLoop` stands for `tesselateOneSideLineLoop` (boundary-only
output under a winding rule) and `triangles` for
`tesselateOneSideTriangles` on one side's contours. -/
structure TessOracle where
  lineLoop : TessWindingRule → Fin 8 → List SubContour → List SubContour
  triangles : Fin 8 → List SubContour → List Vec3

/-- The fill cache `updateVertexArray` builds: per non-empty side, the
oracle's triangles filtered by orientation and unprojected. -/
noncomputable def fillOf (T : TessOracle) (sides : Fin 8 → List SubContour) : List Vec3 :=
  (List.finRange 8).flatMap (fun i =>
    match sides i with
    | [] => []
    | _ => processOneSideTriangles (sideDirections i) (decide (i.val % 2 = 0))
        (T.triangles i (sides i)))

/-- Function `OctahedronPolygon::computeBoundingCap` on the outline-cache
vertices: the empty sentinel `((1,0,0), 2)`, or the normalized vertex sum
with the nudged minimum dot product. -/
noncomputable def computeBoundingCap (pts : List Vec3) : Vec3 × ℝ :=
  match pts with
  | [] => (⟨1, 0, 0⟩, 2)
  | _ =>
    let capN := Vec3.normalize (pts.foldl Vec3.add ⟨0, 0, 0⟩)
    let capD := pts.foldl (fun d v => if capN.dot v < d then capN.dot v else d) 1
    (capN, capD * (if 0 < capD then 0.9999999 else 1.0000001))

/-- OctahedronPolygon: the eight per-face contour lists, the two caches and
the bounding cap. -/
structure OctahedronPolygon where
  sides : Fin 8 → List SubContour
  fillCachedVertexArray : List Vec3
  outlineCachedVertexArray : List Vec3
  capN : Vec3
  capD : ℝ

/-- Function `OctahedronPolygon::updateVertexArray` (caches and bounding cap
rebuilt from `sides`; `sides` itself is left untouched). -/
noncomputable def updateVertexArray (T : TessOracle) (p : OctahedronPolygon) :
    OctahedronPolygon :=
  let fill := fillOf T p.sides
  let outline := outlineOf p.sides
  let cap := computeBoundingCap outline
  { p with
    fillCachedVertexArray := fill
    outlineCachedVertexArray := outline
    capN := cap.1
    capD := cap.2 }

/-- Function `OctahedronPolygon::tesselate(windingRule)`: every non-empty
side is replaced by the tesselator's boundary line loops. -/
noncomputable def tesselate (T : TessOracle) (wr : TessWindingRule)
    (p : OctahedronPolygon) : OctahedronPolygon :=
  { p with sides := fun i =>
      match p.sides i with
      | [] => p.sides i
      | _ => T.lineLoop wr i (p.sides i) }

/-- Function `OctahedronPolygon::append`: concatenate the operand's
sub-contours face by face. -/
def appendPolygon (p other : OctahedronPolygon) : OctahedronPolygon :=
  { p with sides := fun i => p.sides i ++ other.sides i }

/-- Function `OctahedronPolygon::appendReversed`: concatenate the operand's
sub-contours face by face, each reversed. -/
def appendReversedPolygon (p other : OctahedronPolygon) : OctahedronPolygon :=
  { p with sides := fun i => p.sides i ++ (other.sides i).map List.reverse }

/-- Function `OctahedronPolygon::inPlaceIntersection`. -/
noncomputable def inPlaceIntersection (T : TessOracle) (p mpoly : OctahedronPolygon) :
    OctahedronPolygon :=
  if intersectsBoundingCap p.capN p.capD mpoly.capN mpoly.capD then
    updateVertexArray T (tesselate T .windingAbsGeqTwo (appendPolygon p mpoly))
  else p

/-- Function `OctahedronPolygon::inPlaceUnion`: the operand is appended even
when the caps are disjoint; only the canonicalization pass is skipped. -/
noncomputable def inPlaceUnion (T : TessOracle) (p mpoly : OctahedronPolygon) :
    OctahedronPolygon :=
  let intersect := intersectsBoundingCap p.capN p.capD mpoly.capN mpoly.capD
  let appended := appendPolygon p mpoly
  updateVertexArray T (if intersect then tesselate T .windingPositive appended else appended)

/-- Function `OctahedronPolygon::inPlaceSubtraction`. -/
noncomputable def inPlaceSubtraction (T : TessOracle) (p mpoly : OctahedronPolygon) :
    OctahedronPolygon :=
  if intersectsBoundingCap p.capN p.capD mpoly.capN mpoly.capD then
    updateVertexArray T (tesselate T .windingPositive (appendReversedPolygon p mpoly))
  else p

/-- Function `OctahedronPolygon::getPointInside`: the normalized sum of the
first three fill-cache vertices; the source indexes `trianglesArray[0..2]`
unconditionally, so a fill cache shorter than one triangle yields no value
(out-of-bounds access in the source). -/
noncomputable def getPointInside (p : OctahedronPolygon) : Option Vec3 :=
  match p.fillCachedVertexArray with
  | a :: b :: c :: _ => some (Vec3.normalize ((a.add b).add c))
  | _ => none

/-- Flag computation of `combineLineLoopCallback`: fold `||` over the
contributing vertices, stopping at the first null slot (the `break`). -/
def combineEdgeFlag : List (Option EdgeVertex) → Bool
  | [] => false
  | none :: _ => false
  | some v :: rest => v.edgeFlag || combineEdgeFlag rest

/-- Function `combineLineLoopCallback`: the synthesized vertex at `coords`
with the edge flag computed by the bounded loop over `vertex_data[0..3]`. -/
def combineLineLoopCallback (coords : Vec3) (data : Fin 4 → Option EdgeVertex) :
    EdgeVertex :=
  ⟨coords, combineEdgeFlag [data 0, data 1, data 2, data 3]⟩

/-- The spec's description of the combine flag: the logical OR of the edge
flags of all present (non-null) contributing vertices. -/
def presentFlagsOr (data : Fin 4 → Option EdgeVertex) : Bool :=
  (([data 0, data 1, data 2, data 3].filterMap id).map EdgeVertex.edgeFlag).any id

/-- Combine slots with a null in the middle: slot 1 carries a flagged
vertex, slot 0 is null. -/
def combineCexData : Fin 4 → Option EdgeVertex
  | 0 => none
  | 1 => some ⟨⟨0, 0, 0⟩, true⟩
  | _ => none

/-- Combine slots whose nulls form a suffix, for the witness. -/
def combineWitnessData : Fin 4 → Option EdgeVertex
  | 0 => some ⟨⟨0, 0, 0⟩, false⟩
  | 1 => some ⟨⟨0, 0, 0⟩, true⟩
  | _ => none

/-- Per-vertex append of `SubContour::toJSON`: the accumulated string gains
`"[" + render(v) + "],"`, where `render` stands for the
`rectToSphe`/`QString::number` formatting of one vertex (those helpers live
outside this file set). Characters model `QString` positions. -/
def jsonAppend (render : EdgeVertex → List Char) (res : List Char) (v : EdgeVertex) :
    List Char :=
  res ++ ('[' :: (render v ++ [']', ',']))

/-- The string `SubContour::toJSON` accumulates before its final
`res[res.size()-1] = ']'` write. -/
def subContourJSONdata (render : EdgeVertex → List Char) (c : SubContour) : List Char :=
  c.foldl (jsonAppend render) ['[']

/-- The in-place write `res[res.size()-1] = ch` on a `QString`. -/
def replaceLastChar (s : List Char) (ch : Char) : List Char :=
  s.dropLast ++ [ch]

/-- Function `SubContour::toJSON`, parametrized by the vertex renderer. -/
def subContourToJSON (render : EdgeVertex → List Char) (c : SubContour) : List Char :=
  replaceLastChar (subContourJSONdata render c) ']'

/-- Degenerate tesselation oracle used by concrete witnesses. -/
def trivialOracle : TessOracle := ⟨fun _ _ _ => [], fun _ _ => []⟩

/-- Polygon with empty sides and caches and a prescribed bounding cap,
used by concrete witnesses. -/
def capOnlyPolygon (n : Vec3) (d : ℝ) : OctahedronPolygon :=
  ⟨fun _ => [], [], [], n, d⟩

/-! ## Theorems -/

/-- C1: for unit vectors `n1, n2` and reals `d1, d2`, `containsBoundingCap`
holds iff `a ≥ 1` or (`a ≥ 0` and `a² ≥ (1−d1²)(1−d2²)`) with
`a = n1·n2 − d1·d2`; the `d1<=d1` guard in the source is trivially true,
so the predicate computes exactly this formula. -/
theorem containsBoundingCap_iff (n1 : Vec3) (d1 : ℝ) (n2 : Vec3) (d2 : ℝ)
    (h1 : n1.isUnit) (h2 : n2.isUnit) :
    containsBoundingCap n1 d1 n2 d2 ↔
      (1 ≤ n1.dot n2 - d1 * d2 ∨
        (0 ≤ n1.dot n2 - d1 * d2 ∧
          (1 - d1 * d1) * (1 - d2 * d2) ≤
            (n1.dot n2 - d1 * d2) * (n1.dot n2 - d1 * d2))) := by
  unfold containsBoundingCap
  simp

/-- Witness for C1 at the concrete unit vectors `(1,0,0)` and `d1 = d2 = 0`. -/
theorem containsBoundingCap_iff_witness :
    containsBoundingCap ⟨1, 0, 0⟩ 0 ⟨1, 0, 0⟩ 0 ↔
      (1 ≤ Vec3.dot ⟨1, 0, 0⟩ ⟨1, 0, 0⟩ - 0 * 0 ∨
        (0 ≤ Vec3.dot ⟨1, 0, 0⟩ ⟨1, 0, 0⟩ - 0 * 0 ∧
          (1 - 0 * 0) * (1 - 0 * 0) ≤
            (Vec3.dot ⟨1, 0, 0⟩ ⟨1, 0, 0⟩ - 0 * 0) *
              (Vec3.dot ⟨1, 0, 0⟩ ⟨1, 0, 0⟩ - 0 * 0))) :=
  containsBoundingCap_iff ⟨1, 0, 0⟩ 0 ⟨1, 0, 0⟩ 0
    (by norm_num [Vec3.isUnit, Vec3.dot]) (by norm_num [Vec3.isUnit, Vec3.dot])

/-- C2: the claim fails on the code. At the real cap `n2 = (1,0,0)`
(a unit vector), `d2 = 0 ∈ [-1,1]`, the empty-cap sentinel
`n1 = (1,0,0), d1 = 2` makes both `intersectsBoundingCap` and
`containsBoundingCap` hold: the `a ≤ 0` branch of the first and the
`a ≥ 1` branch of the second fire, so the sentinel does compare as
intersecting and containing a real cap. -/
theorem emptyCapSentinel_comparesTrue :
    Vec3.isUnit ⟨1, 0, 0⟩ ∧ (-1 ≤ (0 : ℝ) ∧ (0 : ℝ) ≤ 1) ∧
    intersectsBoundingCap ⟨1, 0, 0⟩ 2 ⟨1, 0, 0⟩ 0 ∧
    containsBoundingCap ⟨1, 0, 0⟩ 2 ⟨1, 0, 0⟩ 0 := by
  refine ⟨by norm_num [Vec3.isUnit, Vec3.dot], ⟨by norm_num, by norm_num⟩, ?_, ?_⟩
  · unfold intersectsBoundingCap
    norm_num [Vec3.dot]
  · unfold containsBoundingCap
    norm_num [Vec3.dot]

/-- C7: pole repair in `appendSubContour` for one quadrant sub-contour.
When the last vertex still carries `edgeFlag = true` the sub-contour is
left unchanged; otherwise, with `c` the cross product of the first and last
vertices, a `c.z` above `1e-8` appends the south pole `(0,0,-1)` with
`edgeFlag = false`, and a `c.z` below `-1e-7` appends the north pole
`(0,0,1)` with `edgeFlag = false`. -/
theorem poleRepair_cases (v0 : EdgeVertex) (rest : List EdgeVertex) :
    (((v0 :: rest).getLast (List.cons_ne_nil v0 rest)).edgeFlag = true →
      poleRepair (v0 :: rest) = v0 :: rest) ∧
    (((v0 :: rest).getLast (List.cons_ne_nil v0 rest)).edgeFlag = false →
      ((0.00000001 <
          (v0.vertex.cross ((v0 :: rest).getLast (List.cons_ne_nil v0 rest)).vertex).z →
        poleRepair (v0 :: rest) = (v0 :: rest) ++ [⟨⟨0, 0, -1⟩, false⟩]) ∧
       ((v0.vertex.cross ((v0 :: rest).getLast (List.cons_ne_nil v0 rest)).vertex).z <
          -0.0000001 →
        poleRepair (v0 :: rest) = (v0 :: rest) ++ [⟨⟨0, 0, 1⟩, false⟩]))) := by
  constructor
  · intro h
    simp [poleRepair, h]
  · intro h
    constructor
    · intro h2
      simp [poleRepair, h, h2]
    · intro h3
      have h4 : ¬ (0.00000001 <
          (v0.vertex.cross ((v0 :: rest).getLast (List.cons_ne_nil v0 rest)).vertex).z) := by
        intro h5
        norm_num at h3 h5
        linarith
      simp [poleRepair, h, h3, h4]

/-- C8 counterexample: with a null in slot 0 and a flagged vertex in slot 1,
the combine callback computes `false` while the OR of the flags of all
present contributing vertices is `true` — the loop breaks at the first
null slot rather than scanning all four. -/
theorem combineEdgeFlag_midNull_cex :
    (combineLineLoopCallback ⟨0, 0, 0⟩ combineCexData).edgeFlag = false ∧
    presentFlagsOr combineCexData = true := by
  constructor <;> rfl

/-- C8 amended: when the absent (null) slots form a suffix of the four
combine slots — as the tesselator provides them — the synthesized vertex's
edge flag equals the logical OR of the edge flags of all present
contributing vertices. -/
theorem combineEdgeFlag_orPresent (coords : Vec3) (data : Fin 4 → Option EdgeVertex)
    (hsuffix : ∀ i j : Fin 4, i ≤ j → (data i).isNone = true → (data j).isNone = true) :
    (combineLineLoopCallback coords data).edgeFlag = presentFlagsOr data := by
  rcases h0 : data 0 with _ | v0
  · have h1 : data 1 = none :=
      Option.isNone_iff_eq_none.1 (hsuffix 0 1 (by decide) (by simp [h0]))
    have h2 : data 2 = none :=
      Option.isNone_iff_eq_none.1 (hsuffix 0 2 (by decide) (by simp [h0]))
    have h3 : data 3 = none :=
      Option.isNone_iff_eq_none.1 (hsuffix 0 3 (by decide) (by simp [h0]))
    simp [combineLineLoopCallback, combineEdgeFlag, presentFlagsOr, h0, h1, h2, h3]
  · rcases h1 : data 1 with _ | v1
    · have h2 : data 2 = none :=
        Option.isNone_iff_eq_none.1 (hsuffix 1 2 (by decide) (by simp [h1]))
      have h3 : data 3 = none :=
        Option.isNone_iff_eq_none.1 (hsuffix 1 3 (by decide) (by simp [h1]))
      simp [combineLineLoopCallback, combineEdgeFlag, presentFlagsOr, h0, h1, h2, h3]
    · rcases h2 : data 2 with _ | v2
      · have h3 : data 3 = none :=
          Option.isNone_iff_eq_none.1 (hsuffix 2 3 (by decide) (by simp [h2]))
        simp [combineLineLoopCallback, combineEdgeFlag, presentFlagsOr, h0, h1, h2, h3]
      · rcases h3 : data 3 with _ | v3 <;>
          simp [combineLineLoopCallback, combineEdgeFlag, presentFlagsOr, h0, h1, h2, h3,
            Bool.or_assoc]

/-- Witness for the amended C8 at concrete combine slots whose nulls form
a suffix. -/
theorem combineEdgeFlag_orPresent_witness :
    (combineLineLoopCallback ⟨0, 0, 0⟩ combineWitnessData).edgeFlag =
      presentFlagsOr combineWitnessData :=
  combineEdgeFlag_orPresent ⟨0, 0, 0⟩ combineWitnessData (by decide)

/-- C9: when the fill cache holds at least one triangle (three vertices),
`getPointInside` returns the normalization of the sum of the first three
fill-cache vertices and the accesses at indices 0, 1, 2 are in bounds;
when it holds fewer than three vertices, the access at index 2 is out of
bounds and the model yields no value. -/
theorem getPointInside_spec (p : OctahedronPolygon) :
    (3 ≤ p.fillCachedVertexArray.length →
      getPointInside p = some (Vec3.normalize
        (((p.fillCachedVertexArray.getD 0 ⟨0, 0, 0⟩).add
            (p.fillCachedVertexArray.getD 1 ⟨0, 0, 0⟩)).add
          (p.fillCachedVertexArray.getD 2 ⟨0, 0, 0⟩))) ∧
      2 < p.fillCachedVertexArray.length) ∧
    (p.fillCachedVertexArray.length < 3 →
      getPointInside p = none ∧ p.fillCachedVertexArray[2]? = none) := by
  rcases hf : p.fillCachedVertexArray with _ | ⟨a, _ | ⟨b, _ | ⟨c, rest⟩⟩⟩ <;>
    constructor <;> intro h <;>
      simp_all [getPointInside, List.getD] <;> omega

/-- C10: `SubContour::toJSON` of an empty sub-contour is the single
character `]` — the final-comma replacement overwrites the opening `[`,
so the result is not `[]` — while for a non-empty sub-contour the
accumulated text ends in a comma and exactly that final comma is replaced
by `]`. -/
theorem subContourToJSON_empty_malformed (render : EdgeVertex → List Char) :
    subContourToJSON render [] = [']'] ∧
    subContourToJSON render [] ≠ ['[', ']'] ∧
    (∀ c : SubContour, c ≠ [] → ∃ body : List Char,
      subContourJSONdata render c = body ++ [','] ∧
      subContourToJSON render c = body ++ [']']) := by
  refine ⟨rfl, by simp [subContourToJSON, subContourJSONdata, replaceLastChar], ?_⟩
  intro c hc
  rcases List.eq_nil_or_concat c with rfl | ⟨l, v, rfl⟩
  · exact absurd rfl hc
  rw [List.concat_eq_append]
  refine ⟨subContourJSONdata render l ++ ('[' :: (render v ++ [']'])), ?_, ?_⟩
  · simp [subContourJSONdata, List.foldl_append, jsonAppend]
  · have hdata : subContourJSONdata render (l ++ [v]) =
        (subContourJSONdata render l ++ ('[' :: (render v ++ [']']))) ++ [','] := by
      simp [subContourJSONdata, List.foldl_append, jsonAppend]
    simp only [subContourToJSON, replaceLastChar]
    rw [hdata, List.dropLast_concat]

/-- C5: when the bounding caps fail the `intersectsBoundingCap` test,
`inPlaceIntersection` and `inPlaceSubtraction` return with the whole state
unchanged, while `inPlaceUnion` still appends the operand's sub-contours
face by face and rebuilds the fill cache, the outline cache and the
bounding cap from the appended sides before returning. -/
theorem booleanOps_disjointCaps (T : TessOracle) (p mpoly : OctahedronPolygon)
    (h : ¬ intersectsBoundingCap p.capN p.capD mpoly.capN mpoly.capD) :
    inPlaceIntersection T p mpoly = p ∧
    inPlaceSubtraction T p mpoly = p ∧
    (inPlaceUnion T p mpoly).sides = (fun i => p.sides i ++ mpoly.sides i) ∧
    (inPlaceUnion T p mpoly).fillCachedVertexArray =
      fillOf T (fun i => p.sides i ++ mpoly.sides i) ∧
    (inPlaceUnion T p mpoly).outlineCachedVertexArray =
      outlineOf (fun i => p.sides i ++ mpoly.sides i) ∧
    (inPlaceUnion T p mpoly).capN =
      (computeBoundingCap (outlineOf (fun i => p.sides i ++ mpoly.sides i))).1 ∧
    (inPlaceUnion T p mpoly).capD =
      (computeBoundingCap (outlineOf (fun i => p.sides i ++ mpoly.sides i))).2 := by
  refine ⟨?_, ?_, ?_, ?_, ?_, ?_, ?_⟩ <;>
    simp [inPlaceIntersection, inPlaceSubtraction, inPlaceUnion, updateVertexArray,
      appendPolygon, h]

/-- Witness for C5 at two concrete polygons with provably disjoint caps. -/
theorem booleanOps_disjointCaps_witness :
    inPlaceIntersection trivialOracle (capOnlyPolygon ⟨1, 0, 0⟩ 0.9)
        (capOnlyPolygon ⟨-1, 0, 0⟩ 0.9) =
      capOnlyPolygon ⟨1, 0, 0⟩ 0.9 :=
  (booleanOps_disjointCaps trivialOracle (capOnlyPolygon ⟨1, 0, 0⟩ 0.9)
      (capOnlyPolygon ⟨-1, 0, 0⟩ 0.9)
      (by norm_num [intersectsBoundingCap, capOnlyPolygon, Vec3.dot])).1

/-- Round trip of central projection and unprojection for a face normal
with a nonzero z-component, in exact real arithmetic. -/
theorem roundTrip_aux (n v : Vec3) (hnz : n.z ≠ 0) (hunit : v.isUnit)
    (hpos : 0 < n.dot v) :
    unprojectOctahedron (projectOnOctahedronVertex v n) n = v := by
  obtain ⟨nx, ny, nz⟩ := n
  obtain ⟨vx, vy, vz⟩ := v
  have hnz' : nz ≠ 0 := hnz
  have hu : vx * vx + vy * vy + vz * vz = 1 := hunit
  have hp : 0 < nx * vx + ny * vy + nz * vz := hpos
  have hS : nx * vx + ny * vy + nz * vz ≠ 0 := ne_of_gt hp
  have key : projectOnOctahedronVertex ⟨vx, vy, vz⟩ ⟨nx, ny, nz⟩ =
      ⟨(1 / (nx * vx + ny * vy + nz * vz)) * vx,
        (1 / (nx * vx + ny * vy + nz * vz)) * vy, 0⟩ := rfl
  have key2 : unprojectOctahedron
      (⟨(1 / (nx * vx + ny * vy + nz * vz)) * vx,
        (1 / (nx * vx + ny * vy + nz * vz)) * vy, 0⟩ : Vec3) ⟨nx, ny, nz⟩ =
      Vec3.normalize ⟨(1 / (nx * vx + ny * vy + nz * vz)) * vx,
        (1 / (nx * vx + ny * vy + nz * vz)) * vy,
        (1 - (nx * ((1 / (nx * vx + ny * vy + nz * vz)) * vx) +
          ny * ((1 / (nx * vx + ny * vy + nz * vz)) * vy) + nz * 0)) / nz⟩ := rfl
  have hz3 : (1 - (nx * ((1 / (nx * vx + ny * vy + nz * vz)) * vx) +
      ny * ((1 / (nx * vx + ny * vy + nz * vz)) * vy) + nz * 0)) / nz =
      (1 / (nx * vx + ny * vy + nz * vz)) * vz := by
    field_simp
    ring
  rw [key, key2, hz3]
  have hlen : Vec3.length ⟨(1 / (nx * vx + ny * vy + nz * vz)) * vx,
      (1 / (nx * vx + ny * vy + nz * vz)) * vy,
      (1 / (nx * vx + ny * vy + nz * vz)) * vz⟩ =
      1 / (nx * vx + ny * vy + nz * vz) := by
    simp only [Vec3.length]
    have h1 : ((1 / (nx * vx + ny * vy + nz * vz)) * vx) *
          ((1 / (nx * vx + ny * vy + nz * vz)) * vx) +
        ((1 / (nx * vx + ny * vy + nz * vz)) * vy) *
          ((1 / (nx * vx + ny * vy + nz * vz)) * vy) +
        ((1 / (nx * vx + ny * vy + nz * vz)) * vz) *
          ((1 / (nx * vx + ny * vy + nz * vz)) * vz) =
        (1 / (nx * vx + ny * vy + nz * vz)) * (1 / (nx * vx + ny * vy + nz * vz)) := by
      linear_combination ((1 / (nx * vx + ny * vy + nz * vz)) *
        (1 / (nx * vx + ny * vy + nz * vz))) * hu
    rw [h1, Real.sqrt_mul_self (le_of_lt (one_div_pos.mpr hp))]
  simp only [Vec3.normalize, hlen, Vec3.smul, one_div_one_div, Vec3.mk.injEq]
  refine ⟨?_, ?_, ?_⟩ <;> field_simp

/-- C6: for every octant `i` and unit vector `v` strictly inside it
(`sideDirections[i]·v > 0`), projecting `v` onto the face plane
(`v ← v/(n·v)`, then `v.z ← 0`) and unprojecting with the same octant
normal (`v.z ← (1 − n·v)/n.z`, then normalize) returns `v`, in exact real
arithmetic. -/
theorem projectUnproject_roundTrip (i : Fin 8) (v : Vec3)
    (hunit : v.isUnit) (hpos : 0 < (sideDirections i).dot v) :
    unprojectOctahedron (projectOnOctahedronVertex v (sideDirections i))
      (sideDirections i) = v := by
  refine roundTrip_aux (sideDirections i) v ?_ hunit hpos
  fin_cases i <;> norm_num [sideDirections]

/-- Witness for C6 at the first octant and the unit vector `(1,0,0)`. -/
theorem projectUnproject_roundTrip_witness :
    unprojectOctahedron (projectOnOctahedronVertex ⟨1, 0, 0⟩ (sideDirections 0))
      (sideDirections 0) = ⟨1, 0, 0⟩ :=
  projectUnproject_roundTrip 0 ⟨1, 0, 0⟩ (by norm_num [Vec3.isUnit, Vec3.dot])
    (by norm_num [sideDirections, Vec3.dot])

/-- Characterization of `getSide`: side 0 means the coordinate is
nonnegative. -/
theorem getSide_eq_zero_iff (v : Vec3) (a : Fin 3) : getSide v a = 0 ↔ 0 ≤ v.nth a := by
  unfold getSide
  split <;> simp_all

/-- The side index is always 0 or 1. -/
theorem getSide_cases (v : Vec3) (a : Fin 3) : getSide v a = 0 ∨ getSide v a = 1 := by
  unfold getSide
  split <;> simp

/-- Side 1 means the coordinate is nonpositive. -/
theorem getSide_eq_one_le (v : Vec3) (a : Fin 3) (h : getSide v a = 1) : v.nth a ≤ 0 := by
  unfold getSide at h
  split at h
  · exact absurd h (by norm_num)
  · next hnot => exact le_of_not_le hnot

/-- An input vertex is good for its own side. -/
theorem goodVertex_self (vs : List Vec3) (a : Fin 3) (ev : EdgeVertex)
    (h : ev.vertex ∈ vs) : goodVertex vs a (getSide ev.vertex a) ev :=
  ⟨⟨fun h0 => (getSide_eq_zero_iff _ _).1 h0, fun h1 => getSide_eq_one_le _ _ h1⟩, Or.inl h⟩

/-- A synthesized cut vertex on the plane is good for every side. -/
theorem goodVertex_onPlane (vs : List Vec3) (a : Fin 3) (q : ℕ) (ev : EdgeVertex)
    (hf : ev.edgeFlag = false) (hp : ev.vertex.nth a = 0) : goodVertex vs a q ev :=
  ⟨⟨fun _ => le_of_eq hp.symm, fun _ => le_of_eq hp⟩, Or.inr ⟨hf, hp⟩⟩

/-- Forcing the last edge flag to false preserves vertex goodness. -/
theorem setLast_good (vs : List Vec3) (a : Fin 3) (q : ℕ) (l : SubContour)
    (hall : ∀ ev ∈ l, goodVertex vs a q ev) :
    ∀ ev ∈ setLastEdgeFlagFalse l, goodVertex vs a q ev := by
  induction l with
  | nil => intro ev h; simp [setLastEdgeFlagFalse] at h
  | cons v rest ih =>
    intro ev hev
    cases rest with
    | nil =>
      simp only [setLastEdgeFlagFalse, List.mem_singleton] at hev
      subst hev
      have hv := hall v (by simp)
      exact ⟨hv.1, hv.2.elim (fun h => Or.inl h) (fun h => Or.inr ⟨rfl, h.2⟩)⟩
    | cons w rest2 =>
      simp only [setLastEdgeFlagFalse, List.mem_cons] at hev
      rcases hev with rfl | hev2
      · exact hall ev (by simp)
      · exact ih (fun e he => hall e (by simp [he])) ev hev2

/-- Forcing the last edge flag to false does not change the vertices. -/
theorem setLast_map_vertex (l : SubContour) :
    (setLastEdgeFlagFalse l).map EdgeVertex.vertex = l.map EdgeVertex.vertex := by
  induction l with
  | nil => rfl
  | cons v rest ih =>
    cases rest with
    | nil => rfl
    | cons w rest2 => simp only [setLastEdgeFlagFalse, List.map_cons] at *; simp [ih]

/-- After forcing, the last vertex of a non-empty sub-contour carries
`edgeFlag = false`. -/
theorem setLast_lastFlag (l : SubContour) :
    l ≠ [] → ∀ d : EdgeVertex, ((setLastEdgeFlagFalse l).getLastD d).edgeFlag = false := by
  induction l with
  | nil => intro h; exact absurd rfl h
  | cons v rest ih =>
    intro _ d
    cases rest with
    | nil => rfl
    | cons w rest2 =>
      simp only [setLastEdgeFlagFalse, List.getLastD_cons]
      exact ih (by simp) v

/-- Pushing a sub-contour good for side `q` into `result[q]` preserves the
per-side goodness of both result lists. -/
theorem pushRes_good (vs : List Vec3) (a : Fin 3) (q : ℕ) (hq : q = 0 ∨ q = 1)
    (C : SubContour) (r0 r1 : List SubContour)
    (h0 : ∀ c ∈ r0, ∀ ev ∈ c, goodVertex vs a 0 ev)
    (h1 : ∀ c ∈ r1, ∀ ev ∈ c, goodVertex vs a 1 ev)
    (hC : ∀ ev ∈ C, goodVertex vs a q ev) :
    (∀ c ∈ (pushRes q C r0 r1).1, ∀ ev ∈ c, goodVertex vs a 0 ev) ∧
    (∀ c ∈ (pushRes q C r0 r1).2, ∀ ev ∈ c, goodVertex vs a 1 ev) := by
  rcases hq with rfl | rfl
  · unfold pushRes
    simp only [if_pos rfl]
    refine ⟨?_, h1⟩
    intro c hc
    rcases List.mem_append.1 hc with h | h
    · exact h0 c h
    · rcases List.mem_singleton.1 h with rfl
      exact hC
  · unfold pushRes
    rw [if_neg (by norm_num : (1 : ℕ) ≠ 0)]
    refine ⟨h0, ?_⟩
    intro c hc
    rcases List.mem_append.1 hc with h | h
    · exact h1 c h
    · rcases List.mem_singleton.1 h with rfl
      exact hC

/-- A successful intersection with the basis plane of axis `a` lies on that
plane: its `a`-th coordinate vanishes. -/
theorem gci_planOf_onPlane (p1 p2 : Vec3) (a : Fin 3) (q : Vec3)
    (h : greatCircleIntersection p1 p2 (planOf a) = some q) : q.nth a = 0 := by
  simp only [greatCircleIntersection] at h
  split at h
  · exact absurd h (by simp)
  · rw [Option.some.injEq] at h
    subst h
    fin_cases a <;> simp [Vec3.cross, Vec3.nth, planOf]

/-- One step of the main splitting loop preserves the invariant. -/
theorem splitStep_inv (a : Fin 3) (vs : List Vec3) (st : SplitState) (cv : EdgeVertex)
    (h : SplitInv vs a st) (hv : cv.vertex ∈ vs) :
    SplitInv vs a (splitStep a (planOf a) st cv) := by
  obtain ⟨hpq, h0, h1, hcur⟩ := h
  unfold splitStep
  dsimp only
  split
  · next hq =>
    refine ⟨hpq, h0, h1, ?_⟩
    intro ev hev
    rcases List.mem_append.1 hev with he | he
    · exact hcur ev he
    · rcases List.mem_singleton.1 he with rfl
      rw [← hq]
      exact goodVertex_self vs a ev hv
  · next hq =>
    split
    · next heq =>
      have hP := pushRes_good vs a st.prevQ hpq (setLastEdgeFlagFalse st.current)
        st.res0 st.res1 h0 h1 (setLast_good vs a st.prevQ st.current hcur)
      refine ⟨getSide_cases _ _, hP.1, hP.2, ?_⟩
      intro ev hev
      rcases List.mem_singleton.1 hev with rfl
      exact goodVertex_self vs a ⟨cv.vertex, false⟩ hv
    · next tmp heq =>
      have htmp : tmp.nth a = 0 := gci_planOf_onPlane _ _ _ _ heq
      have hCC : ∀ ev ∈ st.current ++ [(⟨tmp, false⟩ : EdgeVertex)],
          goodVertex vs a st.prevQ ev := by
        intro ev hev
        rcases List.mem_append.1 hev with he | he
        · exact hcur ev he
        · rcases List.mem_singleton.1 he with rfl
          exact goodVertex_onPlane vs a _ _ rfl htmp
      have hP := pushRes_good vs a st.prevQ hpq (st.current ++ [⟨tmp, false⟩])
        st.res0 st.res1 h0 h1 hCC
      refine ⟨getSide_cases _ _, hP.1, hP.2, ?_⟩
      intro ev hev
      rcases List.mem_cons.1 hev with rfl | hev2
      · exact goodVertex_onPlane vs a _ _ rfl htmp
      · rcases List.mem_singleton.1 hev2 with rfl
        exact goodVertex_self vs a ev hv

/-- The main splitting loop preserves the invariant. -/
theorem splitLoop_inv (a : Fin 3) (vs : List Vec3) (l : List EdgeVertex) :
    ∀ st : SplitState, SplitInv vs a st → (∀ ev ∈ l, ev.vertex ∈ vs) →
      SplitInv vs a (splitLoop a (planOf a) st l) := by
  induction l with
  | nil => intro st h _; exact h
  | cons v rest ih =>
    intro st h hmem
    rw [splitLoop]
    exact ih _ (splitStep_inv a vs st v h (hmem v (by simp)))
      (fun ev he => hmem ev (by simp [he]))

/-- Specification of the first loop: the updated quadrant stays in `{0,1}`,
the unfinished sub-contour is good for the starting side, the opened
accumulator is good for every side (it is empty or one on-plane cut
vertex), and the remaining vertices come from the input. -/
theorem splitFirstLoop_spec (a : Fin 3) (vs : List Vec3) (l : List EdgeVertex) :
    ∀ (q0 : ℕ) (prevV : Vec3), (q0 = 0 ∨ q0 = 1) → (∀ ev ∈ l, ev.vertex ∈ vs) →
      ((splitFirstLoop a (planOf a) q0 prevV l).prevQ = 0 ∨
        (splitFirstLoop a (planOf a) q0 prevV l).prevQ = 1) ∧
      (∀ ev ∈ (splitFirstLoop a (planOf a) q0 prevV l).unfinished,
        goodVertex vs a q0 ev) ∧
      (∀ (q : ℕ), ∀ ev ∈ (splitFirstLoop a (planOf a) q0 prevV l).current,
        goodVertex vs a q ev) ∧
      (∀ ev ∈ (splitFirstLoop a (planOf a) q0 prevV l).rest, ev.vertex ∈ vs) := by
  induction l with
  | nil =>
    intro q0 prevV hq0 _
    refine ⟨hq0, ?_, ?_, ?_⟩ <;> simp [splitFirstLoop]
  | cons v rest ih =>
    intro q0 prevV hq0 hmem
    rw [splitFirstLoop]
    dsimp only
    split
    · next hq =>
      have hr := ih q0 v.vertex hq0 (fun ev he => hmem ev (by simp [he]))
      refine ⟨hr.1, ?_, hr.2.2.1, hr.2.2.2⟩
      intro ev hev
      rcases List.mem_cons.1 hev with rfl | hev2
      · rw [← hq]
        exact goodVertex_self vs a ev (hmem ev (by simp))
      · exact hr.2.1 ev hev2
    · next hq =>
      split
      · next heq =>
        exact ⟨getSide_cases _ _, by simp, by simp, hmem⟩
      · next tmp heq =>
        have htmp : tmp.nth a = 0 := gci_planOf_onPlane _ _ _ _ heq
        refine ⟨getSide_cases _ _, ?_, ?_, hmem⟩
        · intro ev hev
          rcases List.mem_singleton.1 hev with rfl
          exact goodVertex_onPlane vs a _ _ rfl htmp
        · intro q ev hev
          rcases List.mem_singleton.1 hev with rfl
          exact goodVertex_onPlane vs a _ _ rfl htmp

/-- The closing step preserves the invariant, and afterwards the open
accumulator is good for the first vertex's side. -/
theorem splitClose_inv (a : Fin 3) (vs : List Vec3) (firstV : EdgeVertex) (st : SplitState)
    (h : SplitInv vs a st) :
    SplitInv vs a (splitClose a (planOf a) firstV st) ∧
    (∀ ev ∈ (splitClose a (planOf a) firstV st).current,
      goodVertex vs a (getSide firstV.vertex a) ev) := by
  obtain ⟨hpq, h0, h1, hcur⟩ := h
  unfold splitClose
  dsimp only
  split
  · next hq =>
    refine ⟨⟨hpq, h0, h1, hcur⟩, ?_⟩
    intro ev hev
    rw [hq]
    exact hcur ev hev
  · next hq =>
    split
    · next heq =>
      have hP := pushRes_good vs a st.prevQ hpq (setLastEdgeFlagFalse st.current)
        st.res0 st.res1 h0 h1 (setLast_good vs a st.prevQ st.current hcur)
      exact ⟨⟨hpq, hP.1, hP.2, by simp⟩, by simp⟩
    · next tmp heq =>
      have htmp : tmp.nth a = 0 := gci_planOf_onPlane _ _ _ _ heq
      have hCC : ∀ ev ∈ st.current ++ [(⟨tmp, false⟩ : EdgeVertex)],
          goodVertex vs a st.prevQ ev := by
        intro ev hev
        rcases List.mem_append.1 hev with he | he
        · exact hcur ev he
        · rcases List.mem_singleton.1 he with rfl
          exact goodVertex_onPlane vs a _ _ rfl htmp
      have hP := pushRes_good vs a st.prevQ hpq (st.current ++ [⟨tmp, false⟩])
        st.res0 st.res1 h0 h1 hCC
      refine ⟨⟨hpq, hP.1, hP.2, ?_⟩, ?_⟩ <;>
      · intro ev hev
        rcases List.mem_singleton.1 hev with rfl
        exact goodVertex_onPlane vs a _ _ rfl htmp

/-- Every vertex of both outputs of `splitContourByPlan` is good for its
result side. -/
theorem splitContourByPlan_good (a : Fin 3) (input : List EdgeVertex) :
    (∀ c ∈ (splitContourByPlan a input).1, ∀ ev ∈ c,
      goodVertex (input.map EdgeVertex.vertex) a 0 ev) ∧
    (∀ c ∈ (splitContourByPlan a input).2, ∀ ev ∈ c,
      goodVertex (input.map EdgeVertex.vertex) a 1 ev) := by
  cases input with
  | nil => constructor <;> simp [splitContourByPlan]
  | cons first rest =>
    have hmem : ∀ ev ∈ first :: rest, ev.vertex ∈ (first :: rest).map EdgeVertex.vertex :=
      fun ev he => List.mem_map_of_mem _ he
    rw [splitContourByPlan]
    have hq0 := getSide_cases first.vertex a
    have hFL := splitFirstLoop_spec a ((first :: rest).map EdgeVertex.vertex)
      (first :: rest) (getSide first.vertex a) first.vertex hq0 hmem
    set o := splitFirstLoop a (planOf a) (getSide first.vertex a) first.vertex
      (first :: rest) with ho
    have hst1 : SplitInv ((first :: rest).map EdgeVertex.vertex) a
        ⟨[], [], o.current, o.prevQ, o.prevV⟩ :=
      ⟨hFL.1, by simp, by simp, fun ev he => hFL.2.2.1 o.prevQ ev he⟩
    have hst2 := splitLoop_inv a ((first :: rest).map EdgeVertex.vertex) o.rest
      ⟨[], [], o.current, o.prevQ, o.prevV⟩ hst1 hFL.2.2.2
    have hst3 := splitClose_inv a ((first :: rest).map EdgeVertex.vertex) first
      (splitLoop a (planOf a) ⟨[], [], o.current, o.prevQ, o.prevV⟩ o.rest) hst2
    have hfin : ∀ ev ∈ (splitClose a (planOf a) first
          (splitLoop a (planOf a) ⟨[], [], o.current, o.prevQ, o.prevV⟩ o.rest)).current ++
          o.unfinished,
        goodVertex ((first :: rest).map EdgeVertex.vertex) a (getSide first.vertex a) ev := by
      intro ev hev
      rcases List.mem_append.1 hev with he | he
      · exact hst3.2 ev he
      · exact hFL.2.1 ev he
    exact pushRes_good ((first :: rest).map EdgeVertex.vertex) a
      (getSide first.vertex a) hq0 _ _ _ hst3.1.2.1 hst3.1.2.2.1 hfin

/-- C3: `splitContourByPlan` partitions the vertices so that every vertex
placed in `result[0]` satisfies `v[a] ≥ 0` (it is on side 0 or on the
cutting plane), every vertex placed in `result[1]` satisfies `v[a] ≤ 0`
(side 1 or on the plane), every vertex that is not an original input vertex
is a synthesized crossing vertex carrying `edgeFlag = false` and lying on
the cutting plane, and `side(v,a) = 0` iff `v[a] ≥ 0`. -/
theorem splitContourByPlan_halfspaces (a : Fin 3) (input : List EdgeVertex) :
    (∀ c ∈ (splitContourByPlan a input).1, ∀ ev ∈ c, 0 ≤ ev.vertex.nth a) ∧
    (∀ c ∈ (splitContourByPlan a input).2, ∀ ev ∈ c, ev.vertex.nth a ≤ 0) ∧
    (∀ c ∈ (splitContourByPlan a input).1 ++ (splitContourByPlan a input).2,
      ∀ ev ∈ c, ev.vertex ∉ input.map EdgeVertex.vertex →
        ev.edgeFlag = false ∧ ev.vertex.nth a = 0) ∧
    (∀ v : Vec3, getSide v a = 0 ↔ 0 ≤ v.nth a) := by
  obtain ⟨h0, h1⟩ := splitContourByPlan_good a input
  refine ⟨?_, ?_, ?_, fun v => getSide_eq_zero_iff v a⟩
  · intro c hc ev hev
    exact (h0 c hc ev hev).1.1 rfl
  · intro c hc ev hev
    exact (h1 c hc ev hev).1.2 rfl
  · intro c hc ev hev hnot
    rcases List.mem_append.1 hc with h | h
    · rcases (h0 c h ev hev).2 with hm | hgood
      · exact absurd hm hnot
      · exact hgood
    · rcases (h1 c h ev hev).2 with hm | hgood
      · exact absurd hm hnot
      · exact hgood

/-- C4: behaviour of `splitContourByPlan` at a crossing where
`greatCircleIntersection` fails. At the very first crossing nothing is
emitted and nothing is modified: the loop hands both endpoints over with
each on its own side. At a later crossing the open accumulator is closed
exactly as it stands — no cut vertex is inserted (same vertices) — into
`result[previousQuadrant]`, its last vertex's `edgeFlag` is forced to
`false`, and the crossing endpoint starts the next accumulator on its own
side. The closing segment behaves the same, leaving the accumulator empty.
The last two conjuncts state that forcing the flag inserts no vertex and
that the closed contour's last vertex carries `edgeFlag = false`. -/
theorem splitContourByPlan_gciFailurePolicy :
    (∀ (onLine : Fin 3) (plan prevV : Vec3) (q0 : ℕ) (v : EdgeVertex)
        (l : List EdgeVertex),
      getSide v.vertex onLine ≠ q0 →
      greatCircleIntersection prevV v.vertex plan = none →
      splitFirstLoop onLine plan q0 prevV (v :: l) =
        ⟨[], [], getSide v.vertex onLine, prevV, v :: l⟩) ∧
    (∀ (onLine : Fin 3) (plan : Vec3) (st : SplitState) (cv : EdgeVertex),
      getSide cv.vertex onLine ≠ st.prevQ →
      greatCircleIntersection st.prevV cv.vertex plan = none →
      splitStep onLine plan st cv =
        { res0 := (pushRes st.prevQ (setLastEdgeFlagFalse st.current) st.res0 st.res1).1
          res1 := (pushRes st.prevQ (setLastEdgeFlagFalse st.current) st.res0 st.res1).2
          current := [{ cv with edgeFlag := false }]
          prevQ := getSide cv.vertex onLine
          prevV := cv.vertex }) ∧
    (∀ (onLine : Fin 3) (plan : Vec3) (firstV : EdgeVertex) (st : SplitState),
      getSide firstV.vertex onLine ≠ st.prevQ →
      greatCircleIntersection st.prevV firstV.vertex plan = none →
      splitClose onLine plan firstV st =
        { st with
          res0 := (pushRes st.prevQ (setLastEdgeFlagFalse st.current) st.res0 st.res1).1
          res1 := (pushRes st.prevQ (setLastEdgeFlagFalse st.current) st.res0 st.res1).2
          current := [] }) ∧
    (∀ l : SubContour,
      (setLastEdgeFlagFalse l).map EdgeVertex.vertex = l.map EdgeVertex.vertex) ∧
    (∀ l : SubContour, l ≠ [] →
      ((setLastEdgeFlagFalse l).getLastD ⟨⟨0, 0, 0⟩, true⟩).edgeFlag = false) := by
  refine ⟨?_, ?_, ?_, fun l => setLast_map_vertex l, fun l h => setLast_lastFlag l h _⟩
  · intro onLine plan prevV q0 v l hq hnone
    rw [splitFirstLoop]
    simp only [if_neg hq, hnone]
  · intro onLine plan st cv hq hnone
    unfold splitStep
    simp only [if_neg hq, hnone]
  · intro onLine plan firstV st hq hnone
    unfold splitClose
    simp only [if_neg hq, hnone]
